import Mathlib

set_option maxRecDepth 40000

/-!
Verification of the Span Overlap Resolver & Markup Generator
(`entity_markup_converter.py`).

The Python functions `find_all_occurrences`, `extract_entities`,
`resolve_overlaps`, `create_entity_html`, `markup_text` and
`compare_annotations` are shallowly embedded below.  Python strings are
embedded as `List Char` (sequences of code points); Python's half-open
clamped slice `t[a:b]` is `pySlice`; the library helpers `str.find`,
`str.replace`, `sorted` and `html.escape` are modelled by `strFind`,
`pyReplace`, a stable insertion sort and `escapeHtml`, following their
documented behaviour.  All definitions are structurally recursive so
that concrete runs evaluate inside the kernel.
-/

namespace EntityMarkup

/-- Python slice `t[a:b]` (clamped, half-open). -/
def pySlice (t : List Char) (a b : Nat) : List Char :=
  (t.drop a).take (b - a)

/-- Per-character translation of Python `html.escape` (with `quote=True`):
`&`, `<`, `>`, the double quote and the apostrophe become entity
references, every other character is kept. -/
def escapeChar (c : Char) : List Char :=
  if c = '&' then String.toList "&amp;"
  else if c = '<' then String.toList "&lt;"
  else if c = '>' then String.toList "&gt;"
  else if c = Char.ofNat 34 then String.toList "&quot;"
  else if c = Char.ofNat 39 then String.toList "&#x27;"
  else [c]

/-- Python `html.escape(s, quote=True)`. -/
def escapeHtml (s : List Char) : List Char :=
  (s.map escapeChar).flatten

/-- `p` is a (code-point) prefix of `l`. -/
def listStartsWith : List Char → List Char → Bool
  | _, [] => true
  | [], _ :: _ => false
  | a :: as, b :: bs => decide (a = b) && listStartsWith as bs

theorem listStartsWith_iff : ∀ (l p : List Char),
    listStartsWith l p = true ↔ l.take p.length = p := by
  intro l p
  induction p generalizing l with
  | nil => simp [listStartsWith]
  | cons b bs ih =>
    cases l with
    | nil => simp [listStartsWith]
    | cons a as =>
      simp [listStartsWith, ih as]

/-- Scan the suffixes of the text for the first occurrence of `s`,
reporting the absolute index `i` of the current suffix. -/
def strFindFrom (s : List Char) : List Char → Nat → Option Nat
  | suffix, i =>
    if listStartsWith suffix s then some i
    else
      match suffix with
      | [] => none
      | _ :: rest => strFindFrom s rest (i + 1)

/-- Python `t.find(s, start)`: the least index `i ≥ start` at which `s`
occurs in `t` (the occurrence lying wholly inside `t`), `none` when there
is no such index.  Python returns `-1` in the `none` case. -/
def strFind (t s : List Char) (start : Nat) : Option Nat :=
  if start ≤ t.length then strFindFrom s (t.drop start) start else none

theorem strFindFrom_some {s : List Char} :
    ∀ (suffix : List Char) (i pos : Nat),
      strFindFrom s suffix i = some pos →
      i ≤ pos ∧ pos - i ≤ suffix.length ∧
        listStartsWith (suffix.drop (pos - i)) s = true ∧
        ∀ j, i ≤ j → j < pos → listStartsWith (suffix.drop (j - i)) s = false := by
  intro suffix
  induction suffix with
  | nil =>
    intro i pos h
    rw [strFindFrom] at h
    by_cases hs : listStartsWith [] s = true
    · rw [if_pos hs] at h
      cases h
      exact ⟨Nat.le_refl _, by simp, by simpa using hs, fun j hj hj' => by omega⟩
    · rw [if_neg hs] at h
      cases h
  | cons c rest ih =>
    intro i pos h
    rw [strFindFrom] at h
    by_cases hs : listStartsWith (c :: rest) s = true
    · rw [if_pos hs] at h
      cases h
      exact ⟨Nat.le_refl _, by simp, by simpa using hs, fun j hj hj' => by omega⟩
    · rw [if_neg hs] at h
      obtain ⟨h1, h2, h3, h4⟩ := ih (i + 1) pos h
      refine ⟨by omega, by simp; omega, ?_, ?_⟩
      · have hd : (c :: rest).drop (pos - i) = rest.drop (pos - i - 1) := by
          have h5 : pos - i = (pos - i - 1) + 1 := by omega
          conv_lhs => rw [h5]
          rw [List.drop_succ_cons]
        rw [hd]
        have : pos - i - 1 = pos - (i + 1) := by omega
        rw [this]
        exact h3
      · intro j hj hj'
        rcases Nat.eq_or_lt_of_le hj with rfl | hlt
        · simpa using (Bool.not_eq_true _).mp hs
        · have hd : (c :: rest).drop (j - i) = rest.drop (j - i - 1) := by
            have h5 : j - i = (j - i - 1) + 1 := by omega
            conv_lhs => rw [h5]
            rw [List.drop_succ_cons]
          rw [hd]
          have : j - i - 1 = j - (i + 1) := by omega
          rw [this]
          exact h4 j (by omega) hj'

theorem strFindFrom_none {s : List Char} :
    ∀ (suffix : List Char) (i : Nat),
      strFindFrom s suffix i = none →
      ∀ j, i ≤ j → j - i ≤ suffix.length → listStartsWith (suffix.drop (j - i)) s = false := by
  intro suffix
  induction suffix with
  | nil =>
    intro i h j hj hj'
    rw [strFindFrom] at h
    by_cases hs : listStartsWith [] s = true
    · rw [if_pos hs] at h; cases h
    · rw [if_neg hs] at h
      have hji : j = i := by simp at hj'; omega
      subst hji
      simpa [Nat.sub_self] using (Bool.not_eq_true _).mp hs
  | cons c rest ih =>
    intro i h j hj hj'
    rw [strFindFrom] at h
    by_cases hs : listStartsWith (c :: rest) s = true
    · rw [if_pos hs] at h; cases h
    · rw [if_neg hs] at h
      rcases Nat.eq_or_lt_of_le hj with rfl | hlt
      · simpa [Nat.sub_self] using (Bool.not_eq_true _).mp hs
      · have hd : (c :: rest).drop (j - i) = rest.drop (j - (i + 1)) := by
          have h1 : j - i = (j - (i + 1)) + 1 := by omega
          rw [h1, List.drop_succ_cons]
        rw [hd]
        exact ih (i + 1) h j (by omega) (by simp at hj' ⊢; omega)

/-- `i`-indexed occurrence test, Python style: `t[i:i+len s] == s`. -/
theorem listStartsWith_drop_iff (t s : List Char) (i : Nat) :
    listStartsWith (t.drop i) s = true ↔ pySlice t i (i + s.length) = s := by
  rw [listStartsWith_iff, pySlice]
  have : i + s.length - i = s.length := by omega
  rw [this]

theorem strFind_some {t s : List Char} {start pos : Nat}
    (h : strFind t s start = some pos) :
    start ≤ pos ∧ pos ≤ t.length ∧ pySlice t pos (pos + s.length) = s ∧
      ∀ j, start ≤ j → j < pos → pySlice t j (j + s.length) ≠ s := by
  rw [strFind] at h
  by_cases hle : start ≤ t.length
  · rw [if_pos hle] at h
    obtain ⟨h1, h2, h3, h4⟩ := strFindFrom_some (t.drop start) start pos h
    have hlen : (t.drop start).length = t.length - start := by simp
    have hpos : pos ≤ t.length := by omega
    have hdd : ∀ j, start ≤ j → (t.drop start).drop (j - start) = t.drop j := by
      intro j hj
      rw [List.drop_drop]
      congr 1
      omega
    refine ⟨h1, hpos, ?_, ?_⟩
    · rw [hdd pos h1] at h3
      exact (listStartsWith_drop_iff t s pos).mp h3
    · intro j hj hj'
      have := h4 j hj hj'
      rw [hdd j hj] at this
      intro hcontra
      rw [(listStartsWith_drop_iff t s j).mpr hcontra] at this
      cases this
  · rw [if_neg hle] at h
    cases h

theorem strFind_none {t s : List Char} {start : Nat}
    (h : strFind t s start = none) :
    ∀ j, start ≤ j → j ≤ t.length → pySlice t j (j + s.length) ≠ s := by
  rw [strFind] at h
  by_cases hle : start ≤ t.length
  · rw [if_pos hle] at h
    intro j hj hj' hcontra
    have hlen : (t.drop start).length = t.length - start := by simp
    have := strFindFrom_none (t.drop start) start h j hj (by omega)
    rw [List.drop_drop] at this
    have heq : start + (j - start) = j := by omega
    rw [heq] at this
    rw [(listStartsWith_drop_iff t s j).mpr hcontra] at this
    cases this
  · intro j hj hj' hcontra
    omega

/-- The `while True` loop of `find_all_occurrences`: repeatedly `find`
from `start`, record `(pos, pos + len(span))`, continue from `pos + 1`.
The fuel argument only bounds the recursion; `t.length + 1` is enough
because each step strictly increases `start` and `find` fails for
`start > len t`. -/
def findAllLoop (t s : List Char) : Nat → Nat → List (Nat × Nat)
  | start, fuel =>
    match strFind t s start with
    | none => []
    | some pos =>
      match fuel with
      | 0 => []
      | fuel' + 1 => (pos, pos + s.length) :: findAllLoop t s (pos + 1) fuel'

/-- `find_all_occurrences(text, span_text)` from the source. -/
def find_all_occurrences (t s : List Char) : List (Nat × Nat) :=
  findAllLoop t s 0 (t.length + 1)

/-- All start indices `i ≤ len t` at which `s` occurs in `t` under Python
slicing, in ascending order. -/
def matchPositions (t s : List Char) : List Nat :=
  (List.range (t.length + 1)).filter
    (fun i => decide (pySlice t i (i + s.length) = s))

theorem filter_range_eq_cons (pos : Nat) {m : Nat} {p q : Nat → Bool}
    (hpos : pos < m) (hp : p pos = true)
    (hlow : ∀ i, i < pos → p i = false)
    (hqlow : ∀ i, i ≤ pos → q i = false)
    (hagree : ∀ i, pos < i → p i = q i) :
    (List.range m).filter p = pos :: (List.range m).filter q := by
  induction m with
  | zero => omega
  | succ n ih =>
    rw [List.range_succ, List.filter_append, List.filter_append]
    rcases Nat.lt_or_ge pos n with hlt | hge
    · rw [ih hlt]
      have hn : List.filter p [n] = List.filter q [n] := by
        simp [List.filter_singleton, hagree n hlt]
      rw [hn, List.cons_append]
    · have hpe : pos = n := by omega
      subst hpe
      have h1 : (List.range pos).filter p = [] :=
        List.filter_eq_nil_iff.mpr (fun a ha => by
          simp [hlow a (List.mem_range.mp ha)])
      have h2 : (List.range pos).filter q = [] :=
        List.filter_eq_nil_iff.mpr (fun a ha => by
          simp [hqlow a (Nat.le_of_lt (List.mem_range.mp ha))])
      simp [h1, h2, List.filter_singleton, hp, hqlow pos (Nat.le_refl _)]

theorem findAllLoop_eq (t s : List Char) :
    ∀ (fuel start : Nat), t.length + 1 ≤ fuel + start →
      findAllLoop t s start fuel =
        ((List.range (t.length + 1)).filter
          (fun i => decide (start ≤ i) && decide (pySlice t i (i + s.length) = s))).map
          (fun i => (i, i + s.length)) := by
  intro fuel
  induction fuel with
  | zero =>
    intro start hs
    have hfind : strFind t s start = none := by
      rw [strFind, if_neg (by omega)]
    have hred : findAllLoop t s start 0 = [] := by
      rw [findAllLoop]
      simp only [hfind]
    rw [hred]
    have hnil : ((List.range (t.length + 1)).filter
        (fun i => decide (start ≤ i) && decide (pySlice t i (i + s.length) = s))) = [] := by
      refine List.filter_eq_nil_iff.mpr (fun a ha => ?_)
      have ham := List.mem_range.mp ha
      have : ¬ start ≤ a := by omega
      simp [this]
    rw [hnil]
    rfl
  | succ fuel ih =>
    intro start hs
    cases hfind : strFind t s start with
    | none =>
      have hred : findAllLoop t s start (fuel + 1) = [] := by
        rw [findAllLoop]
        simp only [hfind]
      rw [hred]
      have hnil : ((List.range (t.length + 1)).filter
          (fun i => decide (start ≤ i) && decide (pySlice t i (i + s.length) = s))) = [] := by
        refine List.filter_eq_nil_iff.mpr (fun a ha => ?_)
        have ham := List.mem_range.mp ha
        by_cases hsa : start ≤ a
        · have := strFind_none hfind a hsa (by omega)
          simp [hsa, this]
        · simp [hsa]
      rw [hnil]
      rfl
    | some pos =>
      have hred : findAllLoop t s start (fuel + 1) =
          (pos, pos + s.length) :: findAllLoop t s (pos + 1) fuel := by
        rw [findAllLoop]
        simp only [hfind]
      rw [hred]
      obtain ⟨h1, h2, h3, h4⟩ := strFind_some hfind
      rw [filter_range_eq_cons pos
          (p := fun i => decide (start ≤ i) && decide (pySlice t i (i + s.length) = s))
          (q := fun i => decide (pos + 1 ≤ i) && decide (pySlice t i (i + s.length) = s))
          (by omega) (by simp [h1, h3])
          (fun i hi => by
            by_cases hsa : start ≤ i
            · simp [h4 i hsa hi]
            · simp [hsa])
          (fun i hi => by simp; omega)
          (fun i hi => by
            have hs1 : start ≤ i := by omega
            have hp1 : pos + 1 ≤ i := by omega
            simp [hs1, hp1])]
      rw [List.map_cons, ih (pos + 1) (by omega)]

/-- The exact contents of `find_all_occurrences`, as a filter of all
Python-slice match positions. -/
theorem find_all_occurrences_eq (t s : List Char) :
    find_all_occurrences t s = (matchPositions t s).map (fun i => (i, i + s.length)) := by
  rw [find_all_occurrences, findAllLoop_eq t s (t.length + 1) 0 (by omega), matchPositions]
  congr 1
  apply List.filter_congr
  intro i hi
  simp

theorem find_all_occurrences_sorted (t s : List Char) :
    List.Pairwise (fun a b => a < b) ((find_all_occurrences t s).map Prod.fst) := by
  rw [find_all_occurrences_eq, List.map_map]
  have h : (Prod.fst ∘ fun i => (i, i + s.length)) = fun i : Nat => i := rfl
  rw [h, List.map_id']
  exact (List.pairwise_lt_range _).sublist (List.filter_sublist _)

/-- C4: `find_all_occurrences(T, S)` returns exactly the pairs
`(i, i + len S)` for every start index `i` with `T[i:i+len S] == S`
(overlapping occurrences included), listed in strictly ascending
order of `i`. -/
theorem find_all_occurrences_spec (t s : List Char) :
    find_all_occurrences t s =
      (matchPositions t s).map (fun i => (i, i + s.length)) ∧
    List.Pairwise (fun a b => a < b) ((find_all_occurrences t s).map Prod.fst) :=
  ⟨find_all_occurrences_eq t s, find_all_occurrences_sorted t s⟩

/-! ## The data model -/

/-- The three annotation sources (`'ground_truth'`, `'mistral'`, `'gpt4'`). -/
inductive Source where
  | ground_truth
  | mistral
  | gpt4
  deriving DecidableEq, Repr

/-- `source_labels` from the converter's constructor. -/
def source_labels : Source → List Char
  | Source.ground_truth => String.toList "Ground Truth"
  | Source.mistral => String.toList "Mistral Small 3.2"
  | Source.gpt4 => String.toList "GPT-4o Mini"

/-- `EntitySpan` from the source file.  The Python field `end` is a Lean
keyword and is embedded as `endPos`. -/
structure EntitySpan where
  start : Nat
  endPos : Nat
  text : List Char
  types : List (List Char)
  source : Source
  occurrence_id : Nat
  deriving DecidableEq, Repr

/-- One entry of a `labels`/model-output array:
`{span: string, types: [string]}`. -/
structure Annotation where
  span : List Char
  types : List (List Char)
  deriving DecidableEq, Repr

/-- One JSONL record: the passage text plus the three annotation lists
(`labels`, `mistral_small_3.2_output`, `gpt_4o_mini_output`). -/
structure Item where
  text : List Char
  labels : List Annotation
  mistral : List Annotation
  gpt4 : List Annotation
  deriving Repr

/-! ## extract_entities -/

/-- The inner `for start, end in occurrences` loop of `extract_entities`:
each occurrence bumps `span_counters[span_text]` and is recorded with the
bumped counter as its `occurrence_id`.  Returns the new spans together
with the final counter value for this span text. -/
def occLoop (a : Annotation) (src : Source) (occs : List (Nat × Nat)) (c : Nat) :
    List EntitySpan × Nat :=
  match occs with
  | [] => ([], c)
  | oc :: rest =>
      let c' := c + 1
      let r := occLoop a src rest c'
      ({ start := oc.1, endPos := oc.2, text := a.span, types := a.types,
         source := src, occurrence_id := c' } :: r.1, r.2)

/-- The per-source annotation loop of `extract_entities`, threading
`span_counters` (a total map from span text to count; `defaultdict(int)`
is 0 everywhere initially). -/
def processAnnotations (text : List Char) (src : Source) :
    List Annotation → (List Char → Nat) → List EntitySpan
  | [], _ => []
  | a :: rest, counters =>
      let r := occLoop a src (find_all_occurrences text a.span) (counters a.span)
      r.1 ++ processAnnotations text src rest
        (fun k => if k = a.span then r.2 else counters k)

/-- The Python sort key of `extract_entities`,
`key=lambda x: (x.start, -x.end)`, as a `≤`-style relation. -/
def keyLe (a b : EntitySpan) : Prop :=
  a.start < b.start ∨ (a.start = b.start ∧ b.endPos ≤ a.endPos)

instance : DecidableRel keyLe := fun a b =>
  inferInstanceAs (Decidable (a.start < b.start ∨ (a.start = b.start ∧ b.endPos ≤ a.endPos)))

/-- `extract_entities(item)`: ground-truth spans, then the two model
outputs (each with freshly cleared occurrence counters), merged and
stably sorted by `(start, -end)`.  Python's `sorted` is stable, so the
stable insertion sort is an exact model. -/
def extract_entities (item : Item) : List EntitySpan :=
  List.insertionSort keyLe
    (processAnnotations item.text Source.ground_truth item.labels (fun _ => 0)
      ++ processAnnotations item.text Source.mistral item.mistral (fun _ => 0)
      ++ processAnnotations item.text Source.gpt4 item.gpt4 (fun _ => 0))

theorem occLoop_mem {a : Annotation} {src : Source} {occs : List (Nat × Nat)} {c : Nat}
    {e : EntitySpan} (h : e ∈ (occLoop a src occs c).1) :
    ∃ oc ∈ occs, e.start = oc.1 ∧ e.endPos = oc.2 ∧ e.text = a.span ∧ e.source = src := by
  induction occs generalizing c with
  | nil => cases h
  | cons oc rest ih =>
    simp only [occLoop] at h
    rcases List.mem_cons.mp h with rfl | hmem
    · exact ⟨oc, List.mem_cons_self _ _, rfl, rfl, rfl, rfl⟩
    · obtain ⟨oc', hoc', hrest⟩ := ih hmem
      exact ⟨oc', List.mem_cons_of_mem _ hoc', hrest⟩

theorem processAnnotations_mem {text : List Char} {src : Source} :
    ∀ {anns : List Annotation} {counters : List Char → Nat} {e : EntitySpan},
      e ∈ processAnnotations text src anns counters →
      ∃ a ∈ anns, ∃ oc ∈ find_all_occurrences text a.span,
        e.start = oc.1 ∧ e.endPos = oc.2 ∧ e.text = a.span ∧ e.source = src := by
  intro anns
  induction anns with
  | nil =>
    intro counters e h
    cases h
  | cons a rest ih =>
    intro counters e h
    simp only [processAnnotations] at h
    rcases List.mem_append.mp h with hl | hr
    · obtain ⟨oc, hoc, hfacts⟩ := occLoop_mem hl
      exact ⟨a, List.mem_cons_self _ _, oc, hoc, hfacts⟩
    · obtain ⟨a', ha', hrest⟩ := ih hr
      exact ⟨a', List.mem_cons_of_mem _ ha', hrest⟩

theorem mem_find_all_occurrences {t s : List Char} {oc : Nat × Nat}
    (h : oc ∈ find_all_occurrences t s) :
    oc.2 = oc.1 + s.length ∧ pySlice t oc.1 oc.2 = s := by
  rw [find_all_occurrences_eq] at h
  obtain ⟨i, hi, rfl⟩ := List.mem_map.mp h
  have hmatch := List.of_mem_filter hi
  simp only [decide_eq_true_eq] at hmatch
  exact ⟨rfl, hmatch⟩

theorem extract_entities_mem {item : Item} {e : EntitySpan}
    (h : e ∈ extract_entities item) :
    ∃ a ∈ item.labels ++ item.mistral ++ item.gpt4,
      e.text = a.span ∧ e.endPos = e.start + a.span.length ∧
        pySlice item.text e.start e.endPos = a.span := by
  rw [extract_entities, List.mem_insertionSort] at h
  have get : ∀ {anns : List Annotation} {src : Source},
      e ∈ processAnnotations item.text src anns (fun _ => 0) →
      ∃ a ∈ anns, e.text = a.span ∧ e.endPos = e.start + a.span.length ∧
        pySlice item.text e.start e.endPos = a.span := by
    intro anns src hmem
    obtain ⟨a, ha, oc, hoc, h1, h2, h3, _⟩ := processAnnotations_mem hmem
    obtain ⟨hlen, hslice⟩ := mem_find_all_occurrences hoc
    refine ⟨a, ha, h3, by omega, ?_⟩
    rw [h1, h2, hslice]
  rcases List.mem_append.mp h with h' | hg
  · rcases List.mem_append.mp h' with hgt | hm
    · obtain ⟨a, ha, hfacts⟩ := get hgt
      exact ⟨a, by simp [ha], hfacts⟩
    · obtain ⟨a, ha, hfacts⟩ := get hm
      exact ⟨a, by simp [ha], hfacts⟩
  · obtain ⟨a, ha, hfacts⟩ := get hg
    exact ⟨a, by simp [ha], hfacts⟩

/-- The record `{"text": "ab", "labels": [{"span": "", "types": ["A"]}]}`. -/
def itemEmptySpan : Item :=
  { text := String.toList "ab"
    labels := [{ span := [], types := [String.toList "A"] }]
    mistral := []
    gpt4 := [] }

/-- C3 counterexample: on a record whose annotation entry has an empty
span string, `extract_entities` produces spans violating `start < end`
(here three spans `(0,0)`, `(1,1)`, `(2,2)`). -/
theorem extract_entities_empty_span_cex :
    ((extract_entities itemEmptySpan).all (fun e => decide (e.start < e.endPos))) = false ∧
      (extract_entities itemEmptySpan).map (fun e => (e.start, e.endPos)) =
        [(0, 0), (1, 1), (2, 2)] := by
  constructor
  · decide
  · decide

/-- C3 (amended): when every annotation span string of the record is
nonempty, every `EntitySpan` produced by `extract_entities` satisfies
`start < end` and its `text` equals the passage sliced at `[start, end)`.
(As stated the claim also covered empty span strings, where the produced
spans have `start = end`; see the counterexample.) -/
theorem extract_entities_invariant (item : Item)
    (hne : ∀ a ∈ item.labels ++ item.mistral ++ item.gpt4, a.span ≠ []) :
    ∀ e ∈ extract_entities item,
      e.start < e.endPos ∧ e.text = pySlice item.text e.start e.endPos := by
  intro e he
  obtain ⟨a, ha, htext, hlen, hslice⟩ := extract_entities_mem he
  have hpos : 0 < a.span.length := List.length_pos.mpr (hne a ha)
  refine ⟨by omega, ?_⟩
  rw [htext, hslice]

/-- The record `{"text": "ab ab ab", "labels": [{"span": "ab", "types":
["E21 Person"]}]}` (three non-overlapping occurrences). -/
def itemOcc3 : Item :=
  { text := String.toList "ab ab ab"
    labels := [{ span := String.toList "ab", types := [String.toList "E21 Person"] }]
    mistral := []
    gpt4 := [] }

theorem extract_entities_invariant_witness :
    (∀ a ∈ itemOcc3.labels ++ itemOcc3.mistral ++ itemOcc3.gpt4, a.span ≠ []) ∧
      ∀ e ∈ extract_entities itemOcc3,
        e.start < e.endPos ∧ e.text = pySlice itemOcc3.text e.start e.endPos :=
  ⟨by decide, extract_entities_invariant itemOcc3 (by decide)⟩

/-! ## resolve_overlaps -/

/-- The overlap test of `resolve_overlaps`:
`entity.start < group_entity.end and entity.end > group_entity.start`. -/
def spanOverlaps (a b : EntitySpan) : Prop :=
  a.start < b.endPos ∧ a.endPos > b.start

instance : DecidableRel spanOverlaps := fun a b =>
  inferInstanceAs (Decidable (a.start < b.endPos ∧ a.endPos > b.start))

theorem spanOverlaps_symm {a b : EntitySpan} (h : spanOverlaps a b) : spanOverlaps b a :=
  ⟨h.2, h.1⟩

/-- The grouping loop of `resolve_overlaps`: the first argument is
`current_group` (always nonempty), closed groups are emitted in order. -/
def resolveLoop : List EntitySpan → List EntitySpan → List (List EntitySpan)
  | cur, [] => [cur]
  | cur, e :: rest =>
      if cur.any (fun g => decide (spanOverlaps e g)) then
        resolveLoop (cur ++ [e]) rest
      else
        cur :: resolveLoop [e] rest

/-- `resolve_overlaps(entities)` from the source. -/
def resolve_overlaps : List EntitySpan → List (List EntitySpan)
  | [] => []
  | e :: rest => resolveLoop [e] rest

theorem resolveLoop_members :
    ∀ {rest cur g : List EntitySpan}, g ∈ resolveLoop cur rest →
      ∀ x ∈ g, x ∈ cur ++ rest := by
  intro rest
  induction rest with
  | nil =>
    intro cur g hg x hx
    simp only [resolveLoop, List.mem_singleton] at hg
    subst hg
    simpa using hx
  | cons e rest ih =>
    intro cur g hg x hx
    rw [resolveLoop] at hg
    by_cases hov : cur.any (fun g => decide (spanOverlaps e g)) = true
    · rw [if_pos hov] at hg
      have := ih hg x hx
      simp only [List.mem_append, List.mem_cons, List.mem_singleton] at this ⊢
      tauto
    · rw [if_neg hov] at hg
      rcases List.mem_cons.mp hg with rfl | hg'
      · exact List.mem_append_left _ hx
      · have := ih hg' x hx
        simp only [List.mem_append, List.mem_cons, List.mem_singleton] at this ⊢
        tauto

/-- Two spans are connected in a group when a chain of pairwise
overlapping spans of the group joins them. -/
def connectedIn (g : List EntitySpan) (x y : EntitySpan) : Prop :=
  Relation.ReflTransGen (fun a b => a ∈ g ∧ b ∈ g ∧ spanOverlaps a b) x y

/-- Every two members of the group are chain-connected inside it. -/
def groupConnected (g : List EntitySpan) : Prop :=
  ∀ x ∈ g, ∀ y ∈ g, connectedIn g x y

theorem connectedIn_mono {g g' : List EntitySpan} (hsub : ∀ z ∈ g, z ∈ g')
    {x y : EntitySpan} (h : connectedIn g x y) : connectedIn g' x y :=
  Relation.ReflTransGen.mono
    (fun a b hab => ⟨hsub a hab.1, hsub b hab.2.1, hab.2.2⟩) h

theorem groupConnected_append {cur : List EntitySpan} {e : EntitySpan}
    (hconn : groupConnected cur) {m : EntitySpan} (hm : m ∈ cur)
    (hovm : spanOverlaps e m) : groupConnected (cur ++ [e]) := by
  have hsub : ∀ z ∈ cur, z ∈ cur ++ [e] := fun z hz => List.mem_append_left _ hz
  have hecur : e ∈ cur ++ [e] := List.mem_append_right _ (List.mem_singleton.mpr rfl)
  have hem : connectedIn (cur ++ [e]) e m :=
    Relation.ReflTransGen.single ⟨hecur, hsub m hm, hovm⟩
  have hme : connectedIn (cur ++ [e]) m e :=
    Relation.ReflTransGen.single ⟨hsub m hm, hecur, spanOverlaps_symm hovm⟩
  intro x hx y hy
  rcases List.mem_append.mp hx with hx' | hx'
  · rcases List.mem_append.mp hy with hy' | hy'
    · exact connectedIn_mono hsub (hconn x hx' y hy')
    · have hxm : connectedIn (cur ++ [e]) x m := connectedIn_mono hsub (hconn x hx' m hm)
      obtain rfl := List.mem_singleton.mp hy'
      exact hxm.trans hme
  · obtain rfl := List.mem_singleton.mp hx'
    rcases List.mem_append.mp hy with hy' | hy'
    · exact hem.trans (connectedIn_mono hsub (hconn m hm y hy'))
    · obtain rfl := List.mem_singleton.mp hy'
      exact Relation.ReflTransGen.refl

theorem resolveLoop_connected :
    ∀ {rest cur : List EntitySpan}, groupConnected cur →
      ∀ g ∈ resolveLoop cur rest, groupConnected g := by
  intro rest
  induction rest with
  | nil =>
    intro cur hc g hg
    simp only [resolveLoop, List.mem_singleton] at hg
    subst hg
    exact hc
  | cons e rest ih =>
    intro cur hc g hg
    rw [resolveLoop] at hg
    by_cases hov : cur.any (fun g => decide (spanOverlaps e g)) = true
    · rw [if_pos hov] at hg
      obtain ⟨m, hm, hovm⟩ := List.any_eq_true.mp hov
      exact ih (groupConnected_append hc hm (of_decide_eq_true hovm)) g hg
    · rw [if_neg hov] at hg
      rcases List.mem_cons.mp hg with rfl | hg'
      · exact hc
      · refine ih ?_ g hg'
        intro x hx y hy
        have hxe : x = e := List.mem_singleton.mp hx
        have hye : y = e := List.mem_singleton.mp hy
        subst hxe; subst hye
        exact Relation.ReflTransGen.refl

/-- Spans sitting in different output groups never overlap. -/
def noCrossOverlap (gs : List (List EntitySpan)) : Prop :=
  ∀ i j, i < j → j < gs.length →
    ∀ x ∈ gs.getD i [], ∀ y ∈ gs.getD j [], ¬ spanOverlaps x y

theorem closed_group_separated {cur : List EntitySpan} {e : EntitySpan}
    {rest : List EntitySpan}
    (hsorted : List.Pairwise keyLe (cur ++ e :: rest))
    (hpos : ∀ z ∈ cur ++ e :: rest, z.start < z.endPos)
    (hov : cur.any (fun g => decide (spanOverlaps e g)) = false) :
    ∀ x ∈ cur, ∀ y ∈ e :: rest, ¬ spanOverlaps x y := by
  intro x hx y hy
  have hxe : ¬ spanOverlaps e x := by
    have := List.any_eq_false.mp hov x hx
    simpa using this
  have hlex : keyLe x e :=
    (List.pairwise_append.mp hsorted).2.2 x hx e (List.mem_cons_self _ _)
  have hxstart : x.start ≤ e.start := by
    rcases hlex with h | ⟨h, _⟩ <;> omega
  have hepos : e.start < e.endPos :=
    hpos e (List.mem_append_right _ (List.mem_cons_self _ _))
  have hxend : x.endPos ≤ e.start := by
    rcases Nat.lt_or_ge e.start x.endPos with hlt | hge
    · exact absurd ⟨hlt, by omega⟩ hxe
    · exact hge
  have hystart : e.start ≤ y.start := by
    rcases List.mem_cons.mp hy with rfl | hy'
    · exact Nat.le_refl _
    · have hpcons : List.Pairwise keyLe (e :: rest) := (List.pairwise_append.mp hsorted).2.1
      have hle : keyLe e y := (List.pairwise_cons.mp hpcons).1 y hy'
      rcases hle with h | ⟨h, _⟩ <;> omega
  intro hxy
  have : x.endPos > y.start := hxy.2
  omega

theorem noCrossOverlap_cons {cur : List EntitySpan} {gs : List (List EntitySpan)}
    (hcur : ∀ g ∈ gs, ∀ y ∈ g, ∀ x ∈ cur, ¬ spanOverlaps x y)
    (hgs : noCrossOverlap gs) : noCrossOverlap (cur :: gs) := by
  intro i j hij hj x hx y hy
  cases i with
  | zero =>
    cases j with
    | zero => omega
    | succ j' =>
      have hj' : j' < gs.length := by simpa using hj
      have hgmem : gs.getD j' [] ∈ gs := by
        rw [List.getD_eq_getElem gs [] hj']
        exact List.getElem_mem hj'
      exact hcur _ hgmem y hy x hx
  | succ i' =>
    cases j with
    | zero => omega
    | succ j' =>
      exact hgs i' j' (by omega) (by simpa using hj) x hx y hy

theorem resolveLoop_noCross :
    ∀ {rest cur : List EntitySpan},
      List.Pairwise keyLe (cur ++ rest) →
      (∀ z ∈ cur ++ rest, z.start < z.endPos) →
      noCrossOverlap (resolveLoop cur rest) := by
  intro rest
  induction rest with
  | nil =>
    intro cur _ _ i j hij hj x hx y hy
    simp only [resolveLoop, List.length_singleton] at hj
    omega
  | cons e rest ih =>
    intro cur hsorted hpos
    rw [resolveLoop]
    by_cases hov : cur.any (fun g => decide (spanOverlaps e g)) = true
    · rw [if_pos hov]
      refine ih ?_ ?_
      · rw [List.append_assoc]
        simpa using hsorted
      · intro z hz
        refine hpos z ?_
        rw [List.append_assoc] at hz
        simpa using hz
    · rw [if_neg hov]
      have hovf : cur.any (fun g => decide (spanOverlaps e g)) = false := by
        simpa using hov
      apply noCrossOverlap_cons
      · intro g hg y hy x hx
        have hmem : y ∈ [e] ++ rest := resolveLoop_members hg y hy
        exact closed_group_separated hsorted hpos hovf x hx y (by simpa using hmem)
      · refine ih ?_ ?_
        · exact (List.pairwise_append.mp hsorted).2.1
        · intro z hz
          exact hpos z (List.mem_append_right _ (by simpa using hz))

/-- C5 (amended): for every span list sorted by `(start, -end)` whose
spans all satisfy `start < end`, `resolve_overlaps` partitions it into
groups such that (1) any two spans of a group are connected by a chain of
pairwise-overlapping spans within that group and (2) spans in different
groups never overlap.  (The claim as stated, without the `start < end`
proviso, fails: see the counterexample.) -/
theorem resolve_overlaps_grouping (l : List EntitySpan)
    (hsorted : List.Pairwise keyLe l)
    (hpos : ∀ z ∈ l, z.start < z.endPos) :
    (∀ g ∈ resolve_overlaps l, groupConnected g) ∧
      noCrossOverlap (resolve_overlaps l) := by
  cases l with
  | nil =>
    constructor
    · intro g hg
      cases hg
    · intro i j hij hj x hx y hy
      simp [resolve_overlaps] at hj
  | cons e rest =>
    rw [resolve_overlaps]
    have hsingle : groupConnected [e] := by
      intro x hx y hy
      have hxe : x = e := List.mem_singleton.mp hx
      have hye : y = e := List.mem_singleton.mp hy
      subst hxe; subst hye
      exact Relation.ReflTransGen.refl
    constructor
    · exact fun g hg => resolveLoop_connected hsingle g hg
    · exact resolveLoop_noCross (by simpa using hsorted) (by simpa using hpos)

/-- A sorted list with an empty span wedged between two genuinely
overlapping spans: `[0,5)`, `[0,0)`, `[1,4)`. -/
def cexA : EntitySpan :=
  { start := 0, endPos := 5, text := String.toList "abcde",
    types := [String.toList "A"], source := Source.ground_truth, occurrence_id := 1 }

def cexB : EntitySpan :=
  { start := 0, endPos := 0, text := [],
    types := [String.toList "A"], source := Source.ground_truth, occurrence_id := 1 }

def cexC : EntitySpan :=
  { start := 1, endPos := 4, text := String.toList "bcd",
    types := [String.toList "A"], source := Source.ground_truth, occurrence_id := 1 }

def cexList : List EntitySpan := [cexA, cexB, cexC]

/-- C5 is false as stated: `cexList` is sorted by `(start, -end)`, yet
`resolve_overlaps` puts the overlapping spans `[0,5)` and `[1,4)` into
different groups (the empty span `[0,0)` overlaps nothing, so it closes
the first group). -/
theorem resolve_overlaps_cross_group_cex :
    List.Pairwise keyLe cexList ∧ ¬ noCrossOverlap (resolve_overlaps cexList) := by
  constructor
  · decide
  · intro h
    have h0 : cexA ∈ (resolve_overlaps cexList).getD 0 [] := by decide
    have h2 : cexC ∈ (resolve_overlaps cexList).getD 2 [] := by decide
    have hlen : (resolve_overlaps cexList).length = 3 := by decide
    exact h 0 2 (by omega) (by omega) cexA h0 cexC h2 (by decide)

/-- Three nonempty sorted spans: `[0,5)` and `[3,8)` overlap, `[9,10)`
is separate. -/
def wSpan1 : EntitySpan :=
  { start := 0, endPos := 5, text := String.toList "abcde",
    types := [String.toList "A"], source := Source.ground_truth, occurrence_id := 1 }

def wSpan2 : EntitySpan :=
  { start := 3, endPos := 8, text := String.toList "defgh",
    types := [String.toList "B"], source := Source.ground_truth, occurrence_id := 1 }

def wSpan3 : EntitySpan :=
  { start := 9, endPos := 10, text := String.toList "j",
    types := [String.toList "C"], source := Source.ground_truth, occurrence_id := 1 }

def wList : List EntitySpan := [wSpan1, wSpan2, wSpan3]

theorem resolve_overlaps_grouping_witness :
    (List.Pairwise keyLe wList ∧ ∀ z ∈ wList, z.start < z.endPos) ∧
      ((∀ g ∈ resolve_overlaps wList, groupConnected g) ∧
        noCrossOverlap (resolve_overlaps wList)) :=
  ⟨⟨by decide, by decide⟩, resolve_overlaps_grouping wList (by decide) (by decide)⟩

/-! ## HTML rendering -/

/-- Python's `needle in haystack` substring test. -/
def containsSub : List Char → List Char → Bool
  | hay, needle =>
    listStartsWith hay needle ||
      (match hay with
       | [] => false
       | _ :: rest => containsSub rest needle)

/-- Decimal digits of `n` (Python `f"..."` integer formatting). -/
def natChars (n : Nat) : List Char :=
  (Nat.repr n).data

/-- `entity_colors` from the converter's constructor (without the
`'default'` key, kept separately below). -/
def entity_colors : List (List Char × List Char) :=
  [ (String.toList "E21 Person", String.toList "#FF6B6B"),
    (String.toList "E53 Place", String.toList "#4ECDC4"),
    (String.toList "E52 Time-Span", String.toList "#45B7D1"),
    (String.toList "E54 Dimension", String.toList "#96CEB4"),
    (String.toList "E19 Physical Thing", String.toList "#FFEAA7"),
    (String.toList "E74 Group", String.toList "#DDA0DD"),
    (String.toList "E86 Leaving", String.toList "#F39C12"),
    (String.toList "E9 Move", String.toList "#E17055"),
    (String.toList "F2 Expression", String.toList "#A29BFE"),
    (String.toList "E31 Document", String.toList "#FD79A8"),
    (String.toList "E55 Type", String.toList "#FDCB6E"),
    (String.toList "E7 Activity", String.toList "#6C5CE7") ]

/-- `entity_colors['default']`. -/
def defaultColor : List Char := String.toList "#BDC3C7"

/-- Dictionary lookup `self.entity_colors[t]` for a type key. -/
def colorLookup (t : List Char) : Option (List Char) :=
  (entity_colors.find? (fun p => decide (p.1 = t))).map Prod.snd

/-- `get_primary_color`: first type with a mapped color, else default. -/
def get_primary_color : List (List Char) → List Char
  | [] => defaultColor
  | t :: rest =>
      match colorLookup t with
      | some c => c
      | none => get_primary_color rest

/-- `get_combined_colors`: `(primary_color, background)` — solid color
for at most one type, 50/50 gradient for two mapped colors, equal-width
stripes for three or more. -/
def get_combined_colors (types : List (List Char)) : List Char × List Char :=
  if types.length ≤ 1 then
    let primary := get_primary_color types
    (primary, primary)
  else
    let colors := types.filterMap colorLookup
    match colors with
    | [] => (defaultColor, defaultColor)
    | [c] => (c, c)
    | c1 :: c2 :: _ =>
        let gradient :=
          if colors.length = 2 then
            String.toList "linear-gradient(45deg, " ++ c1 ++ String.toList " 50%, "
              ++ c2 ++ String.toList " 50%)"
          else
            let stripe_width := 100 / colors.length
            let gradient_stops := colors.enum.map (fun p =>
              p.2 ++ String.toList " " ++ natChars (p.1 * stripe_width)
                ++ String.toList "%, " ++ p.2 ++ String.toList " "
                ++ natChars ((p.1 + 1) * stripe_width) ++ String.toList "%")
            String.toList "linear-gradient(45deg, "
              ++ List.intercalate (String.toList ", ") gradient_stops ++ String.toList ")"
        (c1, gradient)

/-- `format_types`: `', '.join(types)`. -/
def format_types (types : List (List Char)) : List Char :=
  List.intercalate (String.toList ", ") types

/-- The raw source-string value (`'ground_truth'`, `'mistral'`, `'gpt4'`)
interpolated into the `class` attribute. -/
def sourceKey : Source → List Char
  | Source.ground_truth => String.toList "ground_truth"
  | Source.mistral => String.toList "mistral"
  | Source.gpt4 => String.toList "gpt4"

/-- The `occurrence_suffix` local of `create_entity_html`: a superscript
with the occurrence index exactly when the index exceeds 1. -/
def occurrenceSuffix (e : EntitySpan) : List Char :=
  if 1 < e.occurrence_id then
    String.toList "<sup>" ++ natChars e.occurrence_id ++ String.toList "</sup>"
  else []

/-- The `multi_label_class`, `css_variables` and `type_count_attr` locals
of `create_entity_html`, in that order. -/
def multiLabelInfo (types : List (List Char)) : List Char × List Char × List Char :=
  if 1 < types.length then
    let type_count_attr := String.toList "data-type-count=\x22"
      ++ natChars types.length ++ String.toList "\x22"
    match types.filterMap colorLookup with
    | c1 :: c2 :: c3 :: _ =>
        (String.toList "triple-label",
         String.toList "--primary-color: " ++ c1 ++ String.toList "; --secondary-color: "
           ++ c2 ++ String.toList "; --tertiary-color: " ++ c3 ++ String.toList ";",
         type_count_attr)
    | [c1, c2] =>
        (String.toList "multi-label",
         String.toList "--primary-color: " ++ c1 ++ String.toList "; --secondary-color: "
           ++ c2 ++ String.toList ";",
         type_count_attr)
    | _ => (String.toList "multi-label", [], type_count_attr)
  else ([], [], [])

/-- The `tooltip_html` block of `create_entity_html`: the exact template
text of the Python triple-quoted strings, newlines and indentation
included, with the per-type `<li>` items in between.  Entity-type strings
are interpolated raw (not escaped). -/
def tooltipHtml (e : EntitySpan) : List Char :=
  String.toList "\n        <div class=\x22entity-tooltip\x22>\n            <div class=\x22tooltip-section\x22>\n                <span class=\x22tooltip-label\x22>Source:</span> "
    ++ source_labels e.source
    ++ String.toList "\n            </div>\n            <div class=\x22tooltip-section\x22>\n                <span class=\x22tooltip-label\x22>Position:</span> "
    ++ natChars e.start ++ String.toList "-" ++ natChars e.endPos
    ++ String.toList "\n            </div>\n            <div class=\x22tooltip-section\x22>\n                <span class=\x22tooltip-label\x22>Types:</span>\n                <ul class=\x22type-list\x22>\n        "
    ++ (e.types.map (fun t =>
          String.toList "<li class=\x22type-item\x22 style=\x22border-left: 3px solid "
            ++ (match colorLookup t with | some c => c | none => defaultColor)
            ++ String.toList ";\x22>" ++ t ++ String.toList "</li>")).flatten
    ++ String.toList "\n                </ul>\n            </div>\n        </div>\n        "

/-- Everything of `create_entity_html` before the escaped span text: the
opening `<span ...>` tag with class, style and data attributes (the
`data-types` attribute interpolates the type strings raw). -/
def entityOpenTag (e : EntitySpan) (is_primary : Bool) : List Char :=
  let pc := get_combined_colors e.types
  let info := multiLabelInfo e.types
  let opacity := if is_primary then String.toList "0.8" else String.toList "0.4"
  let background_style :=
    if 1 < e.types.length then String.toList "background: " ++ pc.2 ++ String.toList ";"
    else String.toList "background-color: " ++ pc.2 ++ String.toList ";"
  let types_attr := String.toList "data-types=\x22"
    ++ List.intercalate (String.toList "|") e.types ++ String.toList "\x22"
  String.toList "<span class=\x22entity " ++ sourceKey e.source ++ String.toList " "
    ++ info.1 ++ String.toList "\x22 style=\x22" ++ background_style ++ String.toList " "
    ++ info.2.1 ++ String.toList " opacity: " ++ opacity
    ++ String.toList "; border: 1px solid " ++ pc.1 ++ String.toList ";\x22 "
    ++ types_attr ++ String.toList " " ++ info.2.2 ++ String.toList ">"

/-- `create_entity_html(entity, is_primary)` from the source: the open
tag, the escaped span text, the occurrence superscript, the tooltip block
and the closing tag. -/
def create_entity_html (e : EntitySpan) (is_primary : Bool) : List Char :=
  entityOpenTag e is_primary ++ escapeHtml e.text ++ occurrenceSuffix e
    ++ tooltipHtml e ++ String.toList "</span>"

/-- Python `s.replace(old, new)` for nonempty `old`: scan left to right
and replace every non-overlapping occurrence.  The `skip` counter
consumes the remaining characters of a just-matched `old`.  (Python
treats an empty `old` specially; `markup_text` only ever replaces the
nonempty literal `title="`.) -/
def replaceGo (old new : List Char) : Nat → List Char → List Char
  | _, [] => []
  | 0, c :: rest =>
      if ¬ old = [] ∧ listStartsWith (c :: rest) old = true then
        new ++ replaceGo old new (old.length - 1) rest
      else
        c :: replaceGo old new 0 rest
  | skip + 1, _ :: rest => replaceGo old new skip rest

/-- Python `s.replace(old, new)`. -/
def pyReplace (s old new : List Char) : List Char :=
  replaceGo old new 0 s

/-- `min(e.start for e in group)` (groups are nonempty in use). -/
def groupStart : List EntitySpan → Nat
  | [] => 0
  | e :: rest => rest.foldl (fun m x => min m x.start) e.start

/-- `max(e.end for e in group)`. -/
def groupEnd : List EntitySpan → Nat
  | [] => 0
  | e :: rest => rest.foldl (fun m x => max m x.endPos) e.endPos

/-- Python `max(group, key=lambda x: x.end - x.start)`: the first element
with the greatest length (Python integer subtraction is exact, hence the
`Int` view). -/
def pyMaxByLen (e : EntitySpan) : List EntitySpan → EntitySpan
  | [] => e
  | x :: rest =>
      if (x.endPos : Int) - (x.start : Int) > (e.endPos : Int) - (e.start : Int) then
        pyMaxByLen x rest
      else
        pyMaxByLen e rest

/-- The per-group emission of `markup_text`: a singleton group renders
its entity; a group of two or more renders the longest span as primary
and attempts to splice the secondaries' summaries into a `title="`
attribute of the primary's HTML via `str.replace`. -/
def markupGroup (group : List EntitySpan) : List Char :=
  match group with
  | [] => []
  | [e] => create_entity_html e true
  | e :: rest =>
      let primary := pyMaxByLen e rest
      let secondaries := (e :: rest).filter (fun x => decide (¬ x = primary))
      let primary_html := create_entity_html primary true
      let secondary_info := secondaries.map (fun s =>
        source_labels s.source ++ String.toList ": " ++ format_types s.types)
      if ¬ secondary_info = [] then
        pyReplace primary_html (String.toList "title=\x22")
          (String.toList "title=\x22" ++ (String.toList "\\nAlso annotated as:\\n"
            ++ List.intercalate (String.toList "\\n") secondary_info)
            ++ String.toList "\\n")
      else primary_html

/-- The main loop of `markup_text` over the overlap groups, carrying
`last_pos` (which advances to the group's maximal end). -/
def markupLoop (text : List Char) : List (List EntitySpan) → Nat → List Char
  | [], last_pos =>
      if last_pos < text.length then escapeHtml (text.drop last_pos) else []
  | g :: rest, last_pos =>
      (if groupStart g > last_pos then escapeHtml (pySlice text last_pos (groupStart g))
       else [])
        ++ markupGroup g ++ markupLoop text rest (groupEnd g)

/-- `markup_text(text, entities)` from the source. -/
def markup_text (text : List Char) (entities : List EntitySpan) : List Char :=
  if entities = [] then escapeHtml text
  else markupLoop text (resolve_overlaps entities) 0

/-! ## C2: escaping -/

theorem escapeChar_no_specials (x : Char) :
    (escapeChar x).all
      (fun c => !(decide (c = '<') || decide (c = '>') || decide (c = Char.ofNat 34))) = true := by
  rw [escapeChar]
  split_ifs with h1 h2 h3 h4 h5
  · decide
  · decide
  · decide
  · decide
  · decide
  · simp [List.all_cons, h2, h3, h4]

theorem escapeHtml_no_specials (s : List Char) :
    (escapeHtml s).all
      (fun c => !(decide (c = '<') || decide (c = '>') || decide (c = Char.ofNat 34))) = true := by
  rw [escapeHtml, List.all_eq_true]
  intro c hc
  rw [List.mem_flatten] at hc
  obtain ⟨l, hl, hcl⟩ := hc
  obtain ⟨x, hx, rfl⟩ := List.mem_map.mp hl
  exact List.all_eq_true.mp (escapeChar_no_specials x) c hcl

/-- The entity whose (single) type string is the raw text `<X&>`. -/
def evilTypeSpan : EntitySpan :=
  { start := 0, endPos := 2, text := String.toList "ok",
    types := [String.toList "<X&>"], source := Source.ground_truth, occurrence_id := 1 }

/-- C2 counterexample: the entity-type string `<X&>` appears raw
(unescaped) in the HTML produced by `create_entity_html`, and its escaped
form does not appear anywhere in that HTML. -/
theorem create_entity_html_unescaped_type_cex :
    containsSub (create_entity_html evilTypeSpan true) (String.toList "<X&>") = true ∧
    containsSub (create_entity_html evilTypeSpan true) (String.toList "&lt;X&amp;&gt;") = false := by
  exact ⟨by decide, by decide⟩

/-- C2 (amended): the passage substrings and the span text are escaped —
`html.escape` output never contains a raw `<`, `>` or `"`, an
entity-free passage is rendered as its escape, the span text only enters
`create_entity_html` through `escapeHtml`, and inter-group gap substrings
only enter `markup_text` through `escapeHtml` — but entity-type strings
are interpolated raw into the tooltip `<li>` items and the `data-types`
attribute (see the counterexample). -/
theorem rendering_escapes_span_text_and_gaps (s t : List Char) (e : EntitySpan) (p : Bool)
    (g : List EntitySpan) (gs : List (List EntitySpan)) (last_pos : Nat) :
    (escapeHtml s).all
      (fun c => !(decide (c = '<') || decide (c = '>') || decide (c = Char.ofNat 34))) = true ∧
    markup_text t [] = escapeHtml t ∧
    create_entity_html e p =
      entityOpenTag e p ++ escapeHtml e.text ++ occurrenceSuffix e
        ++ tooltipHtml e ++ String.toList "</span>" ∧
    markupLoop t (g :: gs) last_pos =
      (if groupStart g > last_pos then escapeHtml (pySlice t last_pos (groupStart g))
       else [])
        ++ markupGroup g ++ markupLoop t gs (groupEnd g) := by
  refine ⟨escapeHtml_no_specials s, ?_, rfl, rfl⟩
  rw [markup_text, if_pos rfl]

/-! ## C1: secondary summaries in overlap groups -/

def c1Primary : EntitySpan :=
  { start := 0, endPos := 5, text := String.toList "abcde",
    types := [String.toList "E21 Person"], source := Source.ground_truth, occurrence_id := 1 }

def c1Secondary : EntitySpan :=
  { start := 2, endPos := 6, text := String.toList "cdef",
    types := [String.toList "E53 Place"], source := Source.ground_truth, occurrence_id := 1 }

/-- C1 fails on the code: in the overlap group `[0,5)`, `[2,6)` the
longest span is indeed chosen as primary, but the fragment emitted for
the group is exactly the primary's own HTML — the secondary's source
label and type list are nowhere in it.  The `str.replace` that was meant
to splice the summaries targets a `title="` attribute that
`create_entity_html` never emits (last conjunct), so it replaces
nothing. -/
theorem markup_text_secondary_summary_dropped :
    pyMaxByLen c1Primary [c1Secondary] = c1Primary ∧
    markup_text (String.toList "abcdef") [c1Primary, c1Secondary] =
      create_entity_html c1Primary true ∧
    containsSub (markup_text (String.toList "abcdef") [c1Primary, c1Secondary])
      (String.toList "E53 Place") = false ∧
    containsSub (markup_text (String.toList "abcdef") [c1Primary, c1Secondary])
      (String.toList "Also annotated as") = false ∧
    containsSub (create_entity_html c1Primary true) (String.toList "title=\x22") = false := by
  refine ⟨by decide, by decide, by decide, by decide, by decide⟩

/-! ## C9: occurrence superscripts -/

def occ3a : EntitySpan :=
  { start := 0, endPos := 2, text := String.toList "ab",
    types := [String.toList "E21 Person"], source := Source.ground_truth, occurrence_id := 1 }

def occ3b : EntitySpan :=
  { start := 3, endPos := 5, text := String.toList "ab",
    types := [String.toList "E21 Person"], source := Source.ground_truth, occurrence_id := 2 }

def occ3c : EntitySpan :=
  { start := 6, endPos := 8, text := String.toList "ab",
    types := [String.toList "E21 Person"], source := Source.ground_truth, occurrence_id := 3 }

/-- C9: `create_entity_html` appends `<sup>n</sup>` exactly when the
occurrence index `n` exceeds 1 (first conjunct, the definitional shape of
the suffix), and on the passage `"ab ab ab"` with ground-truth span
`"ab"` the three rendered occurrences carry, in text order, no
superscript, `<sup>2</sup>` and `<sup>3</sup>`. -/
theorem occurrence_superscript_spec :
    (∀ (e : EntitySpan) (p : Bool), create_entity_html e p =
      entityOpenTag e p ++ escapeHtml e.text
        ++ (if 1 < e.occurrence_id
            then String.toList "<sup>" ++ natChars e.occurrence_id ++ String.toList "</sup>"
            else [])
        ++ tooltipHtml e ++ String.toList "</span>") ∧
    (extract_entities itemOcc3).filter (fun e => decide (e.source = Source.ground_truth))
      = [occ3a, occ3b, occ3c] ∧
    markup_text itemOcc3.text
        ((extract_entities itemOcc3).filter (fun e => decide (e.source = Source.ground_truth)))
      = create_entity_html occ3a true ++ String.toList " "
          ++ create_entity_html occ3b true ++ String.toList " "
          ++ create_entity_html occ3c true ∧
    containsSub (create_entity_html occ3a true) (String.toList "<sup>") = false ∧
    containsSub (create_entity_html occ3b true) (String.toList "<sup>2</sup>") = true ∧
    containsSub (create_entity_html occ3b true) (String.toList "<sup>3") = false ∧
    containsSub (create_entity_html occ3c true) (String.toList "<sup>3</sup>") = true ∧
    containsSub (create_entity_html occ3c true) (String.toList "<sup>2") = false := by
  have hfilter : (extract_entities itemOcc3).filter
      (fun e => decide (e.source = Source.ground_truth)) = [occ3a, occ3b, occ3c] := by
    decide
  have hmarkup : markup_text itemOcc3.text [occ3a, occ3b, occ3c]
      = create_entity_html occ3a true ++ String.toList " "
          ++ create_entity_html occ3b true ++ String.toList " "
          ++ create_entity_html occ3c true := by
    have hresolve : resolve_overlaps [occ3a, occ3b, occ3c] = [[occ3a], [occ3b], [occ3c]] := by
      decide
    rw [markup_text, if_neg (by decide), hresolve]
    rw [markupLoop, markupLoop, markupLoop, markupLoop]
    have e1 : markupGroup [occ3a] = create_entity_html occ3a true := rfl
    have e2 : markupGroup [occ3b] = create_entity_html occ3b true := rfl
    have e3 : markupGroup [occ3c] = create_entity_html occ3c true := rfl
    have g1 : (if groupStart [occ3a] > 0 then
        escapeHtml (pySlice itemOcc3.text 0 (groupStart [occ3a])) else ([] : List Char)) = [] := by
      decide
    have g2 : (if groupStart [occ3b] > groupEnd [occ3a] then
        escapeHtml (pySlice itemOcc3.text (groupEnd [occ3a]) (groupStart [occ3b]))
        else ([] : List Char)) = String.toList " " := by decide
    have g3 : (if groupStart [occ3c] > groupEnd [occ3b] then
        escapeHtml (pySlice itemOcc3.text (groupEnd [occ3b]) (groupStart [occ3c]))
        else ([] : List Char)) = String.toList " " := by decide
    have g4 : (if groupEnd [occ3c] < itemOcc3.text.length then
        escapeHtml (itemOcc3.text.drop (groupEnd [occ3c])) else ([] : List Char)) = [] := by
      decide
    rw [e1, e2, e3, g1, g2, g3, g4]
    simp [List.append_assoc]
  refine ⟨fun e p => rfl, hfilter, by rw [hfilter]; exact hmarkup, by decide, by decide,
    by decide, by decide, by decide⟩

/-! ## C10: text covered only by secondary spans -/

def c10A : EntitySpan :=
  { start := 0, endPos := 6, text := String.toList "ZZZZZZ",
    types := [String.toList "E21 Person"], source := Source.ground_truth, occurrence_id := 1 }

def c10B : EntitySpan :=
  { start := 4, endPos := 8, text := String.toList "ZZQQ",
    types := [String.toList "E53 Place"], source := Source.ground_truth, occurrence_id := 1 }

def c10Text : List Char := String.toList "ZZZZZZQQW"

/-- C10: in the sorted list `[0,6)`, `[4,8)` (one overlap group whose
interval union `[0,8)` extends beyond the longest span `[0,6)`), the
rendered output is exactly the primary's HTML followed by the trailing
gap starting at the group end 8 — so the passage characters `QQ` at
positions 6–7, covered only by the secondary span, are absent, while
`last_pos` has advanced past the whole group interval (the trailing `W`
at position 8 is rendered, the `QQ` before it is not). -/
theorem markup_text_secondary_only_text_absent :
    List.Pairwise keyLe [c10A, c10B] ∧
    resolve_overlaps [c10A, c10B] = [[c10A, c10B]] ∧
    pyMaxByLen c10A [c10B] = c10A ∧
    groupEnd [c10A, c10B] = 8 ∧
    c10A.endPos = 6 ∧
    markup_text c10Text [c10A, c10B] =
      create_entity_html c10A true ++ escapeHtml (String.toList "W") ∧
    containsSub (markup_text c10Text [c10A, c10B]) (String.toList "QQ") = false := by
  refine ⟨by decide, by decide, by decide, by decide, by decide, by decide, by decide⟩

/-! ## compare_annotations and the report metrics -/

/-- Lexicographic (code point) order on strings — Python's default
string ordering, used by `sorted(e.types)`. -/
def lexLeB : List Char → List Char → Bool
  | [], _ => true
  | _ :: _, [] => false
  | a :: as, b :: bs => decide (a < b) || (decide (a = b) && lexLeB as bs)

instance : DecidableRel (fun x y : List Char => lexLeB x y = true) := fun x y =>
  inferInstanceAs (Decidable (lexLeB x y = true))

/-- Python `sorted(types)` (stable; equal keys are equal strings here). -/
def pySortStrings (l : List (List Char)) : List (List Char) :=
  List.insertionSort (fun x y => lexLeB x y = true) l

/-- The comparison key `(e.start, e.end, tuple(sorted(e.types)))`. -/
def spanTriple (e : EntitySpan) : Nat × Nat × List (List Char) :=
  (e.start, e.endPos, pySortStrings e.types)

/-- The Python set
`{(e.start, e.end, tuple(sorted(e.types))) for e in l}`. -/
def spanSet (l : List EntitySpan) : Finset (Nat × Nat × List (List Char)) :=
  (l.map spanTriple).toFinset

/-- The Python set `{(e.start, e.end) for e in l}`. -/
def posSet (l : List EntitySpan) : Finset (Nat × Nat) :=
  (l.map (fun e => (e.start, e.endPos))).toFinset

/-- `ComparisonResult` from the source (all counters; `type_mismatches`
keeps its dataclass default and is never set by the code). -/
structure ComparisonResult where
  exact_matches : Nat
  partial_matches : Nat
  type_mismatches : Nat
  ground_truth_only : Nat
  model_only : Nat
  total_ground_truth : Nat
  total_model : Nat
  deriving DecidableEq, Repr

/-- `compare_annotations(ground_truth, model_entities)` from the source. -/
def compare_annotations (ground_truth model_entities : List EntitySpan) : ComparisonResult :=
  let gt_spans := spanSet ground_truth
  let model_spans := spanSet model_entities
  let gt_positions := posSet ground_truth
  let model_positions := posSet model_entities
  let overlapping_positions := gt_positions ∩ model_positions
  let exact_match_positions := (gt_spans ∩ model_spans).image (fun tr => (tr.1, tr.2.1))
  { exact_matches := (gt_spans ∩ model_spans).card
    partial_matches := (overlapping_positions \ exact_match_positions).card
    type_mismatches := 0
    ground_truth_only := (gt_spans \ model_spans).card
    model_only := (model_spans \ gt_spans).card
    total_ground_truth := gt_spans.card
    total_model := model_spans.card }

/-- The zero-initialised `ComparisonResult()` that starts the report's
running totals. -/
def ComparisonResult.zero : ComparisonResult :=
  ⟨0, 0, 0, 0, 0, 0, 0⟩

/-- The per-record accumulation of `generate_html_report` (every field
except `type_mismatches` is summed). -/
def addResult (a b : ComparisonResult) : ComparisonResult :=
  { exact_matches := a.exact_matches + b.exact_matches
    partial_matches := a.partial_matches + b.partial_matches
    type_mismatches := a.type_mismatches
    ground_truth_only := a.ground_truth_only + b.ground_truth_only
    model_only := a.model_only + b.model_only
    total_ground_truth := a.total_ground_truth + b.total_ground_truth
    total_model := a.total_model + b.total_model }

/-- The aggregate `ComparisonResult` of one model over all records: the
report folds `compare_annotations` over the (ground truth, model)
span-list pairs. -/
def aggregateResults (pairs : List (List EntitySpan × List EntitySpan)) : ComparisonResult :=
  pairs.foldl (fun acc p => addResult acc (compare_annotations p.1 p.2)) ComparisonResult.zero

/-- The report's precision expression
`exact_matches / max(total_model, 1)`. -/
def reportedPrecision (r : ComparisonResult) : ℚ :=
  (r.exact_matches : ℚ) / ((max r.total_model 1 : Nat) : ℚ)

/-- The report's recall expression
`exact_matches / max(total_ground_truth, 1)`. -/
def reportedRecall (r : ComparisonResult) : ℚ :=
  (r.exact_matches : ℚ) / ((max r.total_ground_truth 1 : Nat) : ℚ)

/-- The spec's stated precision: exact over total, 0 when the total is 0. -/
def specPrecision (r : ComparisonResult) : ℚ :=
  if r.total_model = 0 then 0 else (r.exact_matches : ℚ) / (r.total_model : ℚ)

/-- The spec's stated recall: exact over total, 0 when the total is 0. -/
def specRecall (r : ComparisonResult) : ℚ :=
  if r.total_ground_truth = 0 then 0 else (r.exact_matches : ℚ) / (r.total_ground_truth : ℚ)

theorem compare_annotations_exact_le (gt model : List EntitySpan) :
    (compare_annotations gt model).exact_matches ≤ (compare_annotations gt model).total_model ∧
    (compare_annotations gt model).exact_matches ≤
      (compare_annotations gt model).total_ground_truth :=
  ⟨Finset.card_le_card Finset.inter_subset_right,
    Finset.card_le_card Finset.inter_subset_left⟩

theorem foldl_exact_le (pairs : List (List EntitySpan × List EntitySpan)) :
    ∀ acc : ComparisonResult,
      acc.exact_matches ≤ acc.total_model →
      acc.exact_matches ≤ acc.total_ground_truth →
      ((pairs.foldl (fun acc p => addResult acc (compare_annotations p.1 p.2))
          acc).exact_matches ≤
        (pairs.foldl (fun acc p => addResult acc (compare_annotations p.1 p.2))
          acc).total_model ∧
       (pairs.foldl (fun acc p => addResult acc (compare_annotations p.1 p.2))
          acc).exact_matches ≤
        (pairs.foldl (fun acc p => addResult acc (compare_annotations p.1 p.2))
          acc).total_ground_truth) := by
  induction pairs with
  | nil => exact fun acc h1 h2 => ⟨h1, h2⟩
  | cons p rest ih =>
    intro acc h1 h2
    apply ih
    · have := (compare_annotations_exact_le p.1 p.2).1
      simp only [addResult]
      omega
    · have := (compare_annotations_exact_le p.1 p.2).2
      simp only [addResult]
      omega

theorem aggregateResults_exact_le (pairs : List (List EntitySpan × List EntitySpan)) :
    (aggregateResults pairs).exact_matches ≤ (aggregateResults pairs).total_model ∧
    (aggregateResults pairs).exact_matches ≤ (aggregateResults pairs).total_ground_truth :=
  foldl_exact_le pairs ComparisonResult.zero (Nat.le_refl 0) (Nat.le_refl 0)

theorem reported_formula_aux {e tot : Nat} (h : e ≤ tot) :
    (e : ℚ) / ((max tot 1 : Nat) : ℚ) = (if tot = 0 then 0 else (e : ℚ) / (tot : ℚ)) ∧
    0 ≤ (e : ℚ) / ((max tot 1 : Nat) : ℚ) ∧
    (e : ℚ) / ((max tot 1 : Nat) : ℚ) ≤ 1 := by
  rcases Nat.eq_zero_or_pos tot with rfl | hpos
  · have he : e = 0 := by omega
    subst he
    norm_num
  · have hmax : max tot 1 = tot := by omega
    rw [hmax, if_neg (by omega)]
    have htotpos : (0 : ℚ) < (tot : ℚ) := by exact_mod_cast hpos
    refine ⟨rfl, ?_, ?_⟩
    · exact div_nonneg (by positivity) (le_of_lt htotpos)
    · rw [div_le_one htotpos]
      exact_mod_cast h

/-- C6: for every aggregate `ComparisonResult` produced by summing
`compare_annotations` results, the report's `exact / max(total, 1)`
precision and recall equal exact over total (0 when the total is 0), and
both quotients lie in `[0, 1]`. -/
theorem report_precision_recall_spec (pairs : List (List EntitySpan × List EntitySpan)) :
    reportedPrecision (aggregateResults pairs) = specPrecision (aggregateResults pairs) ∧
    reportedRecall (aggregateResults pairs) = specRecall (aggregateResults pairs) ∧
    0 ≤ reportedPrecision (aggregateResults pairs) ∧
    reportedPrecision (aggregateResults pairs) ≤ 1 ∧
    0 ≤ reportedRecall (aggregateResults pairs) ∧
    reportedRecall (aggregateResults pairs) ≤ 1 := by
  obtain ⟨h1, h2⟩ := aggregateResults_exact_le pairs
  obtain ⟨p1, p2, p3⟩ := reported_formula_aux h1
  obtain ⟨r1, r2, r3⟩ := reported_formula_aux h2
  exact ⟨p1, r1, p2, p3, r2, r3⟩

/-- C7: the exact-match positions are a subset of the position
intersection, and `partial_matches` equals the size of the position
intersection minus the number of exact-match positions. -/
theorem partial_matches_spec (gt model : List EntitySpan) :
    ((spanSet gt ∩ spanSet model).image (fun tr => (tr.1, tr.2.1)) ⊆
        posSet gt ∩ posSet model) ∧
    (compare_annotations gt model).partial_matches =
      (posSet gt ∩ posSet model).card -
        ((spanSet gt ∩ spanSet model).image (fun tr => (tr.1, tr.2.1))).card := by
  have hsub : (spanSet gt ∩ spanSet model).image (fun tr => (tr.1, tr.2.1)) ⊆
      posSet gt ∩ posSet model := by
    intro pr hpr
    obtain ⟨tr, htr, rfl⟩ := Finset.mem_image.mp hpr
    obtain ⟨htr1, htr2⟩ := Finset.mem_inter.mp htr
    rw [Finset.mem_inter]
    constructor
    · rw [spanSet, List.mem_toFinset] at htr1
      obtain ⟨ent, hent, rfl⟩ := List.mem_map.mp htr1
      rw [posSet, List.mem_toFinset]
      exact List.mem_map.mpr ⟨ent, hent, rfl⟩
    · rw [spanSet, List.mem_toFinset] at htr2
      obtain ⟨ent, hent, rfl⟩ := List.mem_map.mp htr2
      rw [posSet, List.mem_toFinset]
      exact List.mem_map.mpr ⟨ent, hent, rfl⟩
  exact ⟨hsub, Finset.card_sdiff hsub⟩

/-- `{(0, 5, ("A"))}` as one ground-truth span. -/
def c8gt : List EntitySpan :=
  [{ start := 0, endPos := 5, text := String.toList "aaaaa",
     types := [String.toList "A"], source := Source.ground_truth, occurrence_id := 1 }]

/-- `{(0, 5, ("A")), (10, 15, ("B"))}` as two model spans. -/
def c8model : List EntitySpan :=
  [{ start := 0, endPos := 5, text := String.toList "aaaaa",
     types := [String.toList "A"], source := Source.mistral, occurrence_id := 1 },
   { start := 10, endPos := 15, text := String.toList "bbbbb",
     types := [String.toList "B"], source := Source.mistral, occurrence_id := 1 }]

/-- C8: on ground truth `{(0,5,("A"))}` and model predictions
`{(0,5,("A")), (10,15,("B"))}`, `compare_annotations` reports 1 exact
match, 1 model-only span, 0 ground-truth-only spans, and the report's
formulas give precision 50% and recall 100%. -/
theorem compare_annotations_example :
    (compare_annotations c8gt c8model).exact_matches = 1 ∧
    (compare_annotations c8gt c8model).model_only = 1 ∧
    (compare_annotations c8gt c8model).ground_truth_only = 0 ∧
    reportedPrecision (compare_annotations c8gt c8model) = 1 / 2 ∧
    reportedRecall (compare_annotations c8gt c8model) = 1 := by
  have hexact : (compare_annotations c8gt c8model).exact_matches = 1 := by decide
  have htm : (compare_annotations c8gt c8model).total_model = 2 := by decide
  have htg : (compare_annotations c8gt c8model).total_ground_truth = 1 := by decide
  refine ⟨hexact, by decide, by decide, ?_, ?_⟩
  · rw [reportedPrecision, hexact, htm]
    norm_num
  · rw [reportedRecall, hexact, htg]
    norm_num

end EntityMarkup
